import Mathlib

/-!
Verification of the gaw-mkn-daq file-synchronization and rotation/staging
engine against its natural-language specification.

The development shallowly embeds the Python sources:

* `src/mkndaq/utils/filesync.py` (`rsync`) as `rsync` below, over an explicit
  filesystem value.  Wall-clock time (`time.time()`), the formatted calendar
  paths produced by `datetime.strftime`, and environmental copy failures
  (`shutil.copy` raising) are supplied by an explicit `Env` record.
* the rotation/staging tick logic of `src/mkndaq/inst/tei49i.py`
  (`TEI49I.get_data`, the `__file_to_stage` guard) and of
  `src/mkndaq/inst/tei49c.py` (`TEI49C.get_data`, which stages the current
  data file unconditionally on every call).
* the class-attribute versus instance-attribute state layout of the two
  drivers (`TEI49C` uses `@classmethod` with class-level attributes,
  `TEI49I` uses per-object attributes).
* the reporting-interval validation of `src/mkndaq/inst/meteo.py`
  (`METEO.__init__`) and the zip-staging path arithmetic shared by the
  instrument drivers (`file[:-4] + ".zip"`).

File names are modelled as `List Char`, paths as lists of components, a
directory as its immediate regular files (with integer mtimes) and
subdirectory names, and a filesystem as an association list from paths to
directories.  File contents are not modelled: no claim under verification
depends on them.
-/

namespace Mkndaq

/-- A file or directory name (one path component), as a list of characters. -/
abbrev Name : Type := List Char

/-- An absolute path, as a list of components; `os.path.join` is `++`. -/
abbrev Path : Type := List Name

/-- One directory: its immediate regular files (name and mtime, as read by
`os.path.getmtime`) and its immediate subdirectory names. -/
structure Dir where
  files : List (Name × Int)
  subdirs : List Name
  deriving DecidableEq

/-- The empty directory, as created by `os.makedirs`. -/
def emptyDir : Dir := ⟨[], []⟩

/-- A filesystem: an association list from existing directory paths to their
contents.  A path absent from the list does not exist (`os.path.exists` is
false for it). -/
abbrev FS : Type := List (Path × Dir)

/-- Look up the directory at a path (`os.path.exists` plus `os.listdir`). -/
def fsLookup (fs : FS) (p : Path) : Option Dir :=
  (fs.find? (fun e => decide (e.1 = p))).map (fun e => e.2)

/-- The listing of a directory (`os.listdir`): regular files then subdirectories. -/
def listing (d : Dir) : List Name :=
  d.files.map (fun f => f.1) ++ d.subdirs

/-- Membership of a name in the listing of the directory at `p`, false when the
directory does not exist. -/
def memListing (fs : FS) (p : Path) (n : Name) : Prop :=
  match fsLookup fs p with
  | some d => n ∈ listing d
  | none => False

instance (fs : FS) (p : Path) (n : Name) : Decidable (memListing fs p n) := by
  unfold memListing
  cases fsLookup fs p with
  | none => exact inferInstanceAs (Decidable False)
  | some d => exact inferInstanceAs (Decidable (n ∈ listing d))

/-- The mtime of the regular file `n` of directory `d`, or `none` when `n` is
not a regular file there (`os.path.isfile` false). -/
def findFile (d : Dir) (n : Name) : Option Int :=
  (d.files.find? (fun f => decide (f.1 = n))).map (fun f => f.2)

/-- Apply `f` to the directory stored at `p` (all entries with that key). -/
def updateDir (fs : FS) (p : Path) (f : Dir → Dir) : FS :=
  fs.map (fun e => if e.1 = p then (e.1, f e.2) else e)

/-- Add (or overwrite) a regular file in a directory. -/
def addFile (d : Dir) (n : Name) (m : Int) : Dir :=
  { d with files := (n, m) :: d.files.filter (fun f => decide (f.1 ≠ n)) }

/-- Model of `os.makedirs(p, exist_ok=True)`: create the directory if absent.
Registration of `p` in the listings of its ancestors is not modelled; `rsync`
never lists an ancestor of a directory it creates. -/
def makedirs (fs : FS) (p : Path) : FS :=
  match fsLookup fs p with
  | some _ => fs
  | none => (p, emptyDir) :: fs

/-- Model of `shutil.copy(src/n, tgt/n)` at time `now`: the target directory
gains (or overwrites) a regular file `n`; the copy carries the copy-time as
its mtime.  Contents are not modelled. -/
def copyFile (now : Int) (fs : FS) (tgt : Path) (n : Name) : FS :=
  updateDir fs tgt (fun d => addFile d n now)

/-- Model of `filecmp.dircmp(a, b).left_only`: names present in the listing of
`a` and absent from the listing of `b` (regular files and subdirectories
alike), in listing order. -/
def leftOnly (a b : Dir) : List Name :=
  (listing a).filter (fun n => decide (n ∉ listing b))

/-- The environment of one `rsync` call: the value of `time.time()`, the
relative calendar path `datetime.strftime` produces for the day `day` days
before today under a given format, and which copies fail for environmental
reasons (`shutil.copy` raising `OSError`). -/
structure Env where
  now : Int
  datePath : Bool → Nat → Path
  copyFails : Path → Name → Bool

/-- The two date formats of `rsync`: `daily` is `"%Y/%m/%d"`, `monthly` is
`"%Y/%m"`; `Env.datePath` is queried with `true` for daily. -/
def fmtDaily : Bool := true

/-- Monthly format selector for `Env.datePath`. -/
def fmtMonthly : Bool := false

/-- The Python exceptions arising inside the `try` block of `rsync`. -/
inductive PyErr where
  | valueError
  | osError
  deriving DecidableEq

/-- The mutable state threaded through one `rsync` call: the filesystem and
the accumulated `files_copied` list of full target paths. -/
structure St where
  fs : FS
  copied : List Path
  deriving DecidableEq

/-- Outcome of a fragment of the `try` block: normal completion, or an
exception carrying the filesystem state at the point it was raised (side
effects already performed persist). -/
inductive Out where
  | ok (st : St)
  | err (e : PyErr) (st : St)
  deriving DecidableEq

/-- What a Python caller of `rsync` observes: a propagated exception, or a
returned value (`none` models the implicit `return None` of the
`except` handler). -/
inductive CallerOutcome where
  | raised (e : PyErr)
  | returned (v : Option (List Path))
  deriving DecidableEq

/-- Lines 29-43 of `filesync.py`: select the date format and resolve the
delay.  `buckets` is the string (or `None`) argument; `delay` is `none` when
the caller passed `None`.  The declared parameter default is `delay=3600`
(see `delayDefault`); the `86400` branch is reachable only by passing `None`
explicitly. -/
def resolveParams (buckets : Option String) (delay : Option Int) :
    Except PyErr (Option Bool × Int) :=
  if buckets = some "daily" then .ok (some fmtDaily, delay.getD 3600)
  else if buckets = some "monthly" then .ok (some fmtMonthly, delay.getD 86400)
  else if buckets = none then .ok (none, delay.getD 3600)
  else .error .valueError

/-- The declared default of the `delay` parameter of `rsync`
(`delay: int=3600`): a caller omitting the argument passes `3600`, not
`None`. -/
def delayDefault : Option Int := some 3600

/-- Lines 56-63 (and identically 70-74) of `filesync.py`, one candidate:
skip unless `os.path.isfile`; copy when `now - getmtime > delay`; a failing
`shutil.copy` raises, aborting the whole `try` block. -/
def copyStep (env : Env) (delay : Int) (src tgt : Path) (n : Name) (st : St) : Out :=
  match fsLookup st.fs src with
  | none => .ok st
  | some d =>
    match findFile d n with
    | none => .ok st
    | some m =>
      if env.now - m > delay then
        if env.copyFails src n then .err .osError st
        else .ok ⟨copyFile env.now st.fs tgt n, st.copied ++ [tgt ++ [n]]⟩
      else .ok st

/-- The `for file in dcmp.left_only` loop: process candidates in order,
an exception aborting the remainder. -/
def copyLoop (env : Env) (delay : Int) (src tgt : Path) :
    List Name → St → Out
  | [], st => .ok st
  | n :: rest, st =>
    match copyStep env delay src tgt n st with
    | .ok st' => copyLoop env delay src tgt rest st'
    | e => e

/-- One bucket (lines 51-65 of `filesync.py`, and lines 67-76 for the flat
case): if the source bucket exists, create the target bucket, diff the two
directories, and run the copy loop over `left_only`; otherwise print and
continue. -/
def processBucket (env : Env) (delay : Int) (src tgt : Path) (st : St) : Out :=
  match fsLookup st.fs src with
  | none => .ok st
  | some _ =>
    let fs1 := makedirs st.fs tgt
    match fsLookup fs1 src, fsLookup fs1 tgt with
    | some dsrc, some dtgt =>
      copyLoop env delay src tgt (leftOnly dsrc dtgt) { st with fs := fs1 }
    | _, _ => .ok { st with fs := fs1 }

/-- Process a list of (source bucket, target bucket) pairs in order; an
exception aborts the remainder of the cycle. -/
def runBuckets (env : Env) (delay : Int) :
    List (Path × Path) → St → Out
  | [], st => .ok st
  | (src, tgt) :: rest, st =>
    match processBucket env delay src tgt st with
    | .ok st' => runBuckets env delay rest st'
    | e => e

/-- The bucket pairs visited by the `for day in range(0, days)` loop of
`rsync` under format `fmt`. -/
def bucketPairs (env : Env) (fmt : Bool) (source target : Path) (days : Nat) :
    List (Path × Path) :=
  (List.range days).map
    (fun day => (source ++ env.datePath fmt day, target ++ env.datePath fmt day))

/-- The whole `try` block of `rsync` (lines 28-78 of `filesync.py`). -/
def rsyncBody (env : Env) (fs : FS) (source target : Path)
    (buckets : Option String) (days : Nat) (delay : Option Int) : Out :=
  match resolveParams buckets delay with
  | .error e => .err e ⟨fs, []⟩
  | .ok (some fmt, d) => runBuckets env d (bucketPairs env fmt source target days) ⟨fs, []⟩
  | .ok (none, d) => processBucket env d source target ⟨fs, []⟩

/-- `rsync` as its caller observes it: the `try` block, with every exception
caught by the function-level handler (lines 80-81), which prints the error
and falls off the end of the function, returning `None`.  The filesystem
effects performed before an exception persist. -/
def rsync (env : Env) (fs : FS) (source target : Path)
    (buckets : Option String) (days : Nat) (delay : Option Int) :
    CallerOutcome × FS :=
  match rsyncBody env fs source target buckets days delay with
  | .ok st => (.returned (some st.copied), st.fs)
  | .err _ st => (.returned none, st.fs)

/-- A candidate is eligible for copying when it is a regular file of the
source directory `d` whose age exceeds the delay (strictly). -/
def eligibleD (env : Env) (delay : Int) (d : Dir) (n : Name) : Bool :=
  match findFile d n with
  | none => false
  | some m => decide (env.now - m > delay)

/-- The delay actually used by `rsync` for a valid `buckets` argument
(the `delay.getD` of `resolveParams`). -/
def resolvedDelay (buckets : Option String) (delay : Option Int) : Int :=
  if buckets = some "monthly" then delay.getD 86400 else delay.getD 3600

/-- The (source bucket, target bucket) pairs one `rsync` call visits, for a
valid `buckets` argument: the `range(0, days)` loop under a format, or the
single flat pair. -/
def rsyncPairs (env : Env) (source target : Path) (buckets : Option String)
    (days : Nat) : List (Path × Path) :=
  if buckets = some "daily" then bucketPairs env fmtDaily source target days
  else if buckets = some "monthly" then bucketPairs env fmtMonthly source target days
  else [(source, target)]

/-- Per-tick staging of `TEI49I.get_data` (tei49i.py lines 379-391): the
state is `__file_to_stage`; on the first save-tick it is initialized to the
current data file and nothing is staged; afterwards, when the current data
file differs, the remembered file is staged and the state moves to the
current file.  First component: new state; second: the file staged at this
tick, if any. -/
def tei49iStep (file : Path) (s : Option Path) : Option Path × Option Path :=
  match s with
  | none => (some file, none)
  | some prev => if prev = file then (some prev, none) else (some file, some prev)

/-- The staging trace of a sequence of save-ticks of `TEI49I.get_data`,
each tick given by the data-file path computed for it (name, date and bin
label): for each tick, the file staged at that tick, if any. -/
def tei49iRun (s : Option Path) : List Path → List (Option Path)
  | [] => []
  | f :: rest => (tei49iStep f s).2 :: tei49iRun (tei49iStep f s).1 rest

/-- The staging trace of `TEI49C.get_data` (tei49c.py lines 252-261): the
current data file is staged unconditionally on every save-tick. -/
def tei49cRun (ds : List Path) : List (Option Path) :=
  ds.map (fun f => some f)

/-- Modelled from the spec: the expected staging trace, continuing from a
previous tick whose data file was `prev` — stage `prev` exactly at a tick
whose data file differs from the previous tick's. -/
def closeAux (prev : Path) : List Path → List (Option Path)
  | [] => []
  | f :: rest => (if prev = f then none else some prev) :: closeAux f rest

/-- Modelled from the spec (claim C1 and spec section 4.5): the staging
trace in which nothing is staged at the first tick, and afterwards the
previous tick's file is staged exactly at the first tick whose bin
label (hence data-file path) differs from the previous tick's. -/
def closeSignals : List Path → List (Option Path)
  | [] => []
  | f :: rest => none :: closeAux f rest

/-- The bin labels at which `closeAux` emits a staging event. -/
def changePoints (prev : Nat) : List Nat → List Nat
  | [] => []
  | b :: rest => if prev = b then changePoints b rest else prev :: changePoints b rest

/-- Claim C1, for one driver given by its staging-trace function: over every
monotone sequence of bin labels rendered into data-file paths by an injective
naming function, staging events happen exactly at bin closes and no file is
ever staged twice. -/
def c1prop (run : List Path → List (Option Path)) : Prop :=
  ∀ (lab : List Nat) (file : Nat → Path), Function.Injective file →
    lab.Chain' (fun a b => a ≤ b) →
    run (lab.map file) = closeSignals (lab.map file)
    ∧ ((run (lab.map file)).filterMap id).Nodup

/-- Claim C1 as stated: the staging discipline holds for every instrument
driver, in particular for both `TEI49I.get_data` and `TEI49C.get_data`. -/
def c1claim : Prop :=
  c1prop (tei49iRun none) ∧ c1prop tei49cRun

/-- The rotation state of one instrument driver, per the claim: data
directory, current data file, file pending staging, staging configuration. -/
structure TeiState where
  datadir : Path
  datafile : Option Path
  file_to_stage : Option Path
  staging : Path
  zip : Bool
  deriving DecidableEq

/-- The configuration an instrument constructor reads. -/
structure InstCfg where
  datadir : Path
  staging : Path
  zip : Bool
  deriving DecidableEq

/-- The rotation state a constructor establishes from a configuration. -/
def mkTeiState (cfg : InstCfg) : TeiState :=
  ⟨cfg.datadir, none, none, cfg.staging, cfg.zip⟩

/-- The mutable state of the two drivers as Python lays it out: `TEI49C`
keeps a single class-level state record (its `__init__` is a `@classmethod`
writing class attributes, tei49c.py lines 22-39 and 38-115), shared by every
instance; `TEI49I` keeps one record per constructed object (instance
attributes, tei49i.py lines 27-45 and 47-136). -/
structure World where
  tei49c_class : TeiState
  tei49i_objs : List TeiState
  deriving DecidableEq

/-- Constructing a `TEI49C` instance (`__init__`, a `@classmethod`,
tei49c.py lines 38-115): the configuration attributes `_datadir`,
`_staging` and `_zip` of the single class-level record are reassigned.
`cls._datafile` is never assigned in `__init__` — only `get_data`
(line 238) sets it — so it persists across constructions. -/
def tei49c_init (cfg : InstCfg) (w : World) : World :=
  { w with tei49c_class :=
      { w.tei49c_class with
        datadir := cfg.datadir, staging := cfg.staging, zip := cfg.zip } }

/-- Constructing a `TEI49I` instance: a fresh per-object record is added. -/
def tei49i_init (cfg : InstCfg) (w : World) : World :=
  { w with tei49i_objs := w.tei49i_objs ++ [mkTeiState cfg] }

/-- Reading instance `i` of `TEI49C`: every instance reads the class record. -/
def tei49c_view (w : World) (_i : Nat) : TeiState :=
  w.tei49c_class

/-- Reading instance `i` of `TEI49I`: its own record. -/
def tei49i_view (w : World) (i : Nat) : Option TeiState :=
  w.tei49i_objs.get? i

/-- The rotation-state update of one save-tick of `TEI49I.get_data`:
`__datafile` is set to the current data file and `__file_to_stage` follows
the staging guard. -/
def tei49iTickState (file : Path) (s : TeiState) : TeiState :=
  { s with datafile := some file, file_to_stage := (tei49iStep file s.file_to_stage).1 }

/-- A save-tick of `TEI49I.get_data` on instance `i`. -/
def tei49i_get_data (i : Nat) (file : Path) (w : World) : World :=
  match w.tei49i_objs.get? i with
  | some s => { w with tei49i_objs := w.tei49i_objs.set i (tei49iTickState file s) }
  | none => w

/-- A save-tick of `TEI49C.get_data`: `cls._datafile` (class-level) is set. -/
def tei49c_get_data (file : Path) (w : World) : World :=
  { w with tei49c_class := { w.tei49c_class with datafile := some file } }

/-- Claim C9 as stated: no construction or operation of a second instance of
the same driver changes an existing instance's rotation state, for either
driver. -/
def c9claim : Prop :=
  (∀ w cfg i, tei49c_view (tei49c_init cfg w) i = tei49c_view w i)
  ∧ (∀ w f i, tei49c_view (tei49c_get_data f w) i = tei49c_view w i)
  ∧ (∀ w cfg i, i < w.tei49i_objs.length →
      tei49i_view (tei49i_init cfg w) i = tei49i_view w i)
  ∧ (∀ w f i j, j ≠ i → tei49i_view (tei49i_get_data i f w) j = tei49i_view w j)

/-- The condition under which `METEO.__init__` (meteo.py lines 64-66) raises
`ValueError`: the Python expression is
`not (ri == 10 or ri % 60 == 0) and ri <= 1440` — the upper bound is
conjoined with the negation, not part of it. -/
def meteo_interval_raises (ri : Int) : Bool :=
  (!(ri == 10 || ri % 60 == 0)) && decide (ri ≤ 1440)

/-- What a caller of a constructor observes. -/
inductive InitOutcome where
  | ok
  | okLoggedError (e : PyErr)
  | raisedToCaller (e : PyErr)
  deriving DecidableEq

/-- The reporting-interval handling of `METEO.__init__`: the check runs
inside the constructor's `try`, whose `except` logs the error, so even a
failing check completes construction. -/
def meteo_init_interval (ri : Int) : InitOutcome :=
  if meteo_interval_raises ri then .okLoggedError .valueError else .ok

/-- The reporting-interval handling of `TEI49C.__init__` (tei49c.py lines
104-106): the value is stored with no validation at all. -/
def tei49c_init_interval (_ri : Int) : InitOutcome := .ok

/-- The values claim C5 declares valid. -/
def c5valid (ri : Int) : Prop :=
  ri = 10 ∨ (ri % 60 = 0 ∧ ri ≤ 1440)

/-- Claim C5 as stated: both constructors succeed on valid reporting
intervals and fail, with the error reaching the caller, on all others. -/
def c5claim : Prop :=
  ∀ ri : Int,
    (c5valid ri → meteo_init_interval ri = .ok ∧ tei49c_init_interval ri = .ok)
    ∧ (¬ c5valid ri →
        meteo_init_interval ri = .raisedToCaller .valueError
        ∧ tei49c_init_interval ri = .raisedToCaller .valueError)

/-- Python `file[:-4]`. -/
def pyDropLast4 (s : Name) : Name := s.take (s.length - 4)

/-- Compression modes of `zipfile`; the sources always pass `ZIP_DEFLATED`. -/
inductive Compression where
  | deflated
  | stored
  deriving DecidableEq

/-- A staging zip artifact: its full path, compression, and entry names. -/
structure ZipArtifact where
  path : Path
  compression : Compression
  entries : List Name
  deriving DecidableEq

/-- The archive file name the sources build: `"".join([file[:-4], ".zip"])`
(meteo.py line 102, tei49i.py line 386, tei49c.py line 257, aerosol.py
line 159). -/
def zipName (file : Name) : Name := pyDropLast4 file ++ ".zip".toList

/-- Staging one file as a zip archive (`METEO.store_and_stage_files` lines
100-104 and the analogous code of the other drivers): the artifact is
written under the staging root and instrument name, with deflate
compression, and its single entry is named by the file's basename. -/
def stageZip (staging : Path) (instName : Name) (file : Name) : ZipArtifact :=
  { path := staging ++ [instName, zipName file]
  , compression := .deflated
  , entries := [file] }

/-- Modelled from the spec: the basename without its extension — everything
before the last dot, or the whole name when it has no dot. -/
def specStem (s : Name) : Name :=
  if '.' ∈ s then ((s.reverse.dropWhile (fun c => decide (c ≠ '.'))).drop 1).reverse
  else s

/-- Claim C8 as stated: every archive-staged file yields an artifact at
`<staging>/<instrument>/<basename-without-extension>.zip`, deflate, single
entry named by the original basename. -/
def c8claim : Prop :=
  ∀ (staging : Path) (instName : Name) (file : Name),
    stageZip staging instName file =
      { path := staging ++ [instName, specStem file ++ ".zip".toList]
      , compression := .deflated
      , entries := [file] }

/-- Claim C4 as stated: with the delay argument left at its declared default,
`rsync` resolves the delay to 3600 for daily or flat bucketing and to 86400
for monthly bucketing. -/
def c4claim : Prop :=
  resolveParams (some "daily") delayDefault = .ok (some fmtDaily, 3600)
  ∧ resolveParams none delayDefault = .ok (none, 3600)
  ∧ resolveParams (some "monthly") delayDefault = .ok (some fmtMonthly, 86400)

/-- Claim C6 as stated: an invalid `buckets` value makes `rsync` fail with a
configuration error that the caller observes as a raised error, with no
files copied. -/
def c6claim : Prop :=
  ∀ env fs source target buckets days delay,
    buckets ≠ none → buckets ≠ some "daily" → buckets ≠ some "monthly" →
    (rsync env fs source target buckets days delay).1 = .raised .valueError
    ∧ (rsync env fs source target buckets days delay).2 = fs

/-- Claim C2 as stated, observationally: even when some candidate's copy
fails, every other settled candidate of the same cycle whose own copy does
not fail still reaches the target directory. -/
def c2claim : Prop :=
  ∀ env fs source target days d dsrc dtgt,
    fsLookup fs source = some dsrc → fsLookup fs target = some dtgt →
    source ≠ target →
    ∀ x ∈ leftOnly dsrc dtgt, eligibleD env d dsrc x = true →
      env.copyFails source x = false →
      memListing (rsync env fs source target none days (some d)).2 target x

/-- Claim C7 as stated: a second `rsync` run over the same source and
target, with the same source files (only time may have advanced), copies
nothing. -/
def c7claim : Prop :=
  ∀ (env1 env2 : Env) fs source target buckets days delay,
    (buckets = none ∨ buckets = some "daily" ∨ buckets = some "monthly") →
    env1.datePath = env2.datePath → env1.now ≤ env2.now →
    (∀ p x, env1.copyFails p x = false) → (∀ p x, env2.copyFails p x = false) →
    (rsync env2 (rsync env1 fs source target buckets days delay).2
      source target buckets days delay).1 = .returned (some [])

/-- The failures claim C10 enumerates: invalid configuration, missing source
directories, a failed copy. -/
def c10failure (env : Env) (fs : FS) (source : Path) (buckets : Option String)
    (days : Nat) : Prop :=
  (buckets ≠ none ∧ buckets ≠ some "daily" ∧ buckets ≠ some "monthly")
  ∨ (buckets = none ∧ fsLookup fs source = none)
  ∨ (buckets = some "daily" ∧
      ∃ day, day < days ∧ fsLookup fs (source ++ env.datePath fmtDaily day) = none)
  ∨ (buckets = some "monthly" ∧
      ∃ day, day < days ∧ fsLookup fs (source ++ env.datePath fmtMonthly day) = none)
  ∨ (∃ p x, env.copyFails p x = true)

/-- Claim C10 as stated: `rsync` never raises, and it returns `None` exactly
when one of the enumerated failures (invalid configuration, missing
directories, a failed copy) occurred. -/
def c10claim : Prop :=
  ∀ env fs source target buckets days delay,
    (∀ e, (rsync env fs source target buckets days delay).1 ≠ .raised e)
    ∧ ((rsync env fs source target buckets days delay).1 = .returned none ↔
        c10failure env fs source buckets days)

deriving instance DecidableEq for Except

/-- Saturation of a filesystem for a list of bucket pairs: for every pair
whose source bucket exists, the target bucket exists and already holds every
settled regular file of the source. -/
def saturatedFor (env : Env) (delay : Int) (pairs : List (Path × Path)) (fs : FS) : Prop :=
  ∀ pr ∈ pairs, ∀ dsrc, fsLookup fs pr.1 = some dsrc →
    (fsLookup fs pr.2).isSome = true ∧
    (∀ n, eligibleD env delay dsrc n = true → n ∈ listing dsrc →
      memListing fs pr.2 n)

/-- An environment in which copying the file `a` out of the source
directory `s` fails (models `shutil.copy` raising for that one file). -/
def envF : Env :=
  ⟨100, fun _ _ => [], fun p x => decide (p = [['s']] ∧ x = ['a'])⟩

/-- An environment one second before `envB2`: time 10000. -/
def envA1 : Env := ⟨10000, fun _ _ => [], fun _ _ => false⟩

/-- An environment one second after `envA1`: time 10001. -/
def envB2 : Env := ⟨10001, fun _ _ => [], fun _ _ => false⟩

/-- A fixed benign environment for concrete runs: time 100, empty relative
date paths, no environmental copy failures. -/
def envC : Env := ⟨100, fun _ _ => [], fun _ _ => false⟩

end Mkndaq


namespace Mkndaq

theorem fsLookup_nil (q : Path) : fsLookup [] q = none := rfl

theorem fsLookup_cons (e : Path × Dir) (fs : FS) (q : Path) :
    fsLookup (e :: fs) q = if e.1 = q then some e.2 else fsLookup fs q := by
  by_cases h : e.1 = q
  · rw [if_pos h]
    unfold fsLookup
    rw [List.find?_cons_of_pos _ (by simpa using h)]
    rfl
  · rw [if_neg h]
    unfold fsLookup
    rw [List.find?_cons_of_neg _ (by simpa using h)]

theorem updateDir_cons (e : Path × Dir) (fs : FS) (p : Path) (f : Dir → Dir) :
    updateDir (e :: fs) p f =
      (if e.1 = p then (e.1, f e.2) else e) :: updateDir fs p f := rfl

theorem fsLookup_updateDir_self (fs : FS) (p : Path) (f : Dir → Dir) :
    fsLookup (updateDir fs p f) p = (fsLookup fs p).map f := by
  induction fs with
  | nil => rfl
  | cons e rest ih =>
    rw [updateDir_cons]
    by_cases hep : e.1 = p
    · rw [if_pos hep, fsLookup_cons, fsLookup_cons]
      simp [hep]
    · rw [if_neg hep, fsLookup_cons, fsLookup_cons, if_neg hep, if_neg hep, ih]

theorem fsLookup_updateDir_ne (fs : FS) (p q : Path) (f : Dir → Dir)
    (h : q ≠ p) : fsLookup (updateDir fs p f) q = fsLookup fs q := by
  induction fs with
  | nil => rfl
  | cons e rest ih =>
    rw [updateDir_cons]
    by_cases hep : e.1 = p
    · have heq : ¬ (e.1 = q) := fun hq => h (hq ▸ hep)
      rw [if_pos hep, fsLookup_cons, fsLookup_cons, if_neg heq, ih]
      rw [if_neg (by simpa [hep] using heq)]
    · rw [if_neg hep, fsLookup_cons, fsLookup_cons, ih]

theorem fsLookup_makedirs_self (fs : FS) (p : Path) :
    fsLookup (makedirs fs p) p = some ((fsLookup fs p).getD emptyDir) := by
  unfold makedirs
  cases h : fsLookup fs p with
  | some d => simp [h]
  | none => simp [fsLookup_cons]

theorem fsLookup_makedirs_ne (fs : FS) (p q : Path) (h : q ≠ p) :
    fsLookup (makedirs fs p) q = fsLookup fs q := by
  unfold makedirs
  cases hp : fsLookup fs p with
  | some d => rfl
  | none =>
    rw [fsLookup_cons]
    exact if_neg (fun he => h he.symm)

theorem mem_listing_addFile (d : Dir) (n : Name) (m : Int) (x : Name) :
    x ∈ listing (addFile d n m) ↔ x = n ∨ x ∈ listing d := by
  simp only [listing, addFile, List.map_cons, List.cons_append, List.mem_cons,
    List.mem_append, List.mem_map, List.mem_filter]
  constructor
  · rintro (h | ⟨⟨a, ⟨ha, _⟩, rfl⟩ | h⟩)
    · exact Or.inl h
    · exact Or.inr (Or.inl ⟨a, ha, rfl⟩)
    · exact Or.inr (Or.inr h)
  · rintro (h | ⟨⟨a, ha, rfl⟩ | h⟩)
    · exact Or.inl h
    · by_cases hx : a.1 = n
      · exact Or.inl hx
      · exact Or.inr (Or.inl ⟨a, ⟨ha, by simpa using hx⟩, rfl⟩)
    · exact Or.inr (Or.inr h)

theorem fsLookup_copyFile_ne (now : Int) (fs : FS) (tgt q : Path) (n : Name)
    (h : q ≠ tgt) : fsLookup (copyFile now fs tgt n) q = fsLookup fs q := by
  unfold copyFile
  rw [fsLookup_updateDir_ne _ _ _ _ h]

theorem memListing_copyFile_self (now : Int) (fs : FS) (tgt : Path) (n x : Name)
    (dt : Dir) (h : fsLookup fs tgt = some dt) :
    memListing (copyFile now fs tgt n) tgt x ↔ x = n ∨ memListing fs tgt x := by
  unfold memListing copyFile
  rw [fsLookup_updateDir_self, h]
  simp [mem_listing_addFile]

theorem memListing_copyFile_ne (now : Int) (fs : FS) (tgt q : Path) (n x : Name)
    (h : q ≠ tgt) :
    memListing (copyFile now fs tgt n) q x ↔ memListing fs q x := by
  unfold memListing
  rw [fsLookup_copyFile_ne now fs tgt q n h]

theorem memListing_makedirs (fs : FS) (p q : Path) (x : Name) :
    memListing fs q x → memListing (makedirs fs p) q x := by
  intro h
  by_cases hqp : q = p
  · subst hqp
    unfold memListing at h ⊢
    rw [fsLookup_makedirs_self]
    cases hl : fsLookup fs q with
    | none => rw [hl] at h; exact absurd h not_false
    | some d => rw [hl] at h; simpa [hl] using h
  · unfold memListing at h ⊢
    rw [fsLookup_makedirs_ne fs p q hqp]
    exact h

end Mkndaq

namespace Mkndaq

theorem copyStep_not_eligible (env : Env) (delay : Int) (src tgt : Path)
    (n : Name) (st : St) (d : Dir) (h : fsLookup st.fs src = some d)
    (he : eligibleD env delay d n = false) :
    copyStep env delay src tgt n st = .ok st := by
  unfold eligibleD at he
  cases hm : findFile d n with
  | none => simp [copyStep, h, hm]
  | some m =>
    rw [hm] at he
    simp [copyStep, h, hm, of_decide_eq_false he]

theorem copyStep_eligible_ok (env : Env) (delay : Int) (src tgt : Path)
    (n : Name) (st : St) (d : Dir) (h : fsLookup st.fs src = some d)
    (he : eligibleD env delay d n = true) (hf : env.copyFails src n = false) :
    copyStep env delay src tgt n st =
      .ok ⟨copyFile env.now st.fs tgt n, st.copied ++ [tgt ++ [n]]⟩ := by
  unfold eligibleD at he
  cases hm : findFile d n with
  | none => rw [hm] at he; exact absurd he (by simp)
  | some m =>
    rw [hm] at he
    simp [copyStep, h, hm, of_decide_eq_true he, hf]

theorem copyStep_eligible_fail (env : Env) (delay : Int) (src tgt : Path)
    (n : Name) (st : St) (d : Dir) (h : fsLookup st.fs src = some d)
    (he : eligibleD env delay d n = true) (hf : env.copyFails src n = true) :
    copyStep env delay src tgt n st = .err .osError st := by
  unfold eligibleD at he
  cases hm : findFile d n with
  | none => rw [hm] at he; exact absurd he (by simp)
  | some m =>
    rw [hm] at he
    simp [copyStep, h, hm, of_decide_eq_true he, hf]

theorem copyLoop_nil (env : Env) (delay : Int) (src tgt : Path) (st : St) :
    copyLoop env delay src tgt [] st = .ok st := rfl

theorem copyLoop_cons (env : Env) (delay : Int) (src tgt : Path)
    (n : Name) (rest : List Name) (st : St) :
    copyLoop env delay src tgt (n :: rest) st =
      match copyStep env delay src tgt n st with
      | .ok st' => copyLoop env delay src tgt rest st'
      | e => e := rfl

theorem copyLoop_append (env : Env) (delay : Int) (src tgt : Path)
    (l1 l2 : List Name) (st : St) :
    copyLoop env delay src tgt (l1 ++ l2) st =
      match copyLoop env delay src tgt l1 st with
      | .ok st' => copyLoop env delay src tgt l2 st'
      | e => e := by
  induction l1 generalizing st with
  | nil => rfl
  | cons n rest ih =>
    rw [List.cons_append, copyLoop_cons, copyLoop_cons]
    cases copyStep env delay src tgt n st with
    | ok st' => exact ih st'
    | err e st' => rfl

theorem copyLoop_ok (env : Env) (delay : Int) (src tgt : Path)
    (names : List Name) (st : St) (dsrc dt : Dir)
    (hfail : ∀ x ∈ names, env.copyFails src x = false)
    (hne : src ≠ tgt)
    (hsrc : fsLookup st.fs src = some dsrc)
    (htgt : fsLookup st.fs tgt = some dt) :
    ∃ fs', copyLoop env delay src tgt names st =
        .ok ⟨fs', st.copied ++
          (names.filter (eligibleD env delay dsrc)).map (fun n => tgt ++ [n])⟩
      ∧ (∀ p, p ≠ tgt → fsLookup fs' p = fsLookup st.fs p)
      ∧ (∀ x, memListing fs' tgt x ↔
          memListing st.fs tgt x ∨ x ∈ names.filter (eligibleD env delay dsrc))
      ∧ (fsLookup fs' tgt).isSome = true := by
  induction names generalizing st dt with
  | nil =>
    refine ⟨st.fs, by simp [copyLoop], fun p _ => rfl, fun x => by simp [List.filter],
      by rw [htgt]; rfl⟩
  | cons n rest ih =>
    have hfn : env.copyFails src n = false := hfail n (List.mem_cons_self n rest)
    have hfrest : ∀ x ∈ rest, env.copyFails src x = false :=
      fun x hx => hfail x (List.mem_cons_of_mem n hx)
    by_cases hel : eligibleD env delay dsrc n = true
    · -- the candidate is copied, then the rest of the loop runs
      have hstep := copyStep_eligible_ok env delay src tgt n st dsrc hsrc hel hfn
      rw [copyLoop_cons, hstep]
      dsimp only
      set st1 : St := ⟨copyFile env.now st.fs tgt n, st.copied ++ [tgt ++ [n]]⟩ with hst1
      have hsrc1 : fsLookup st1.fs src = some dsrc := by
        rw [hst1]
        rw [fsLookup_copyFile_ne env.now st.fs tgt src n hne]
        exact hsrc
      have htgt1 : fsLookup st1.fs tgt = some (addFile dt n env.now) := by
        rw [hst1]
        unfold copyFile
        rw [fsLookup_updateDir_self, htgt]
        rfl
      obtain ⟨fs', hrun, hoff, hmem, hiso⟩ := ih st1 (addFile dt n env.now) hfrest hsrc1 htgt1
      refine ⟨fs', ?_, ?_, ?_, hiso⟩
      · rw [hrun]
        simp [hst1, List.filter_cons, hel]
      · intro p hp
        rw [hoff p hp, hst1]
        exact fsLookup_copyFile_ne env.now st.fs tgt p n hp
      · intro x
        rw [hmem x, hst1]
        have hc := memListing_copyFile_self env.now st.fs tgt n x dt htgt
        simp only [List.filter_cons, hel, List.mem_cons]
        constructor
        · rintro (h | h)
          · rcases (hc.mp h) with h1 | h1
            · exact Or.inr (by simp [h1])
            · exact Or.inl h1
          · exact Or.inr (by simp [h])
        · rintro (h | h)
          · exact Or.inl (hc.mpr (Or.inr h))
          · rcases (by simpa using h : x = n ∨ x ∈ List.filter (eligibleD env delay dsrc) rest) with h1 | h1
            · exact Or.inl (hc.mpr (Or.inl h1))
            · exact Or.inr h1
    · -- the candidate is skipped
      have hel2 : eligibleD env delay dsrc n = false := by
        cases hb : eligibleD env delay dsrc n with
        | true => exact absurd hb hel
        | false => rfl
      have hstep := copyStep_not_eligible env delay src tgt n st dsrc hsrc hel2
      rw [copyLoop_cons, hstep]
      dsimp only
      obtain ⟨fs', hrun, hoff, hmem, hiso⟩ := ih st dt hfrest hsrc htgt
      refine ⟨fs', ?_, hoff, ?_, hiso⟩
      · rw [hrun]
        simp [List.filter_cons, hel2]
      · intro x
        rw [hmem x]
        simp [List.filter_cons, hel2]

end Mkndaq

namespace Mkndaq

theorem memListing_congr (a b : FS) (p : Path) (x : Name)
    (h : fsLookup a p = fsLookup b p) : memListing a p x ↔ memListing b p x := by
  unfold memListing
  rw [h]

theorem makedirs_of_isSome (fs : FS) (p : Path)
    (h : (fsLookup fs p).isSome = true) : makedirs fs p = fs := by
  unfold makedirs
  cases hl : fsLookup fs p with
  | some d => rfl
  | none => rw [hl] at h; exact absurd h (by simp)

theorem mem_leftOnly (a b : Dir) (n : Name) :
    n ∈ leftOnly a b ↔ n ∈ listing a ∧ n ∉ listing b := by
  simp [leftOnly, List.mem_filter]

theorem leftOnly_self (d : Dir) : leftOnly d d = [] := by
  rw [List.eq_nil_iff_forall_not_mem]
  intro n hn
  rw [mem_leftOnly] at hn
  exact hn.2 hn.1

theorem processBucket_ok (env : Env) (delay : Int) (src tgt : Path) (st : St)
    (hfail : ∀ x, env.copyFails src x = false) :
    ∃ st', processBucket env delay src tgt st = .ok st'
      ∧ (∀ p, p ≠ tgt → fsLookup st'.fs p = fsLookup st.fs p)
      ∧ (∀ p x, memListing st.fs p x → memListing st'.fs p x)
      ∧ (∀ p, (fsLookup st.fs p).isSome = true → (fsLookup st'.fs p).isSome = true)
      ∧ (∃ l, st'.copied = st.copied ++ l)
      ∧ (∀ dsrc, fsLookup st.fs src = some dsrc →
          (fsLookup st'.fs tgt).isSome = true ∧
          (∀ n, eligibleD env delay dsrc n = true → n ∈ listing dsrc →
            memListing st'.fs tgt n)) := by
  cases hsrc : fsLookup st.fs src with
  | none =>
    refine ⟨st, by simp [processBucket, hsrc], fun p _ => rfl, fun p x h => h,
      fun p h => h, ⟨[], by simp⟩, fun dsrc h => absurd h (by simp)⟩
  | some dsrc0 =>
    by_cases hst : src = tgt
    · subst hst
      have hmk : makedirs st.fs src = st.fs :=
        makedirs_of_isSome st.fs src (by rw [hsrc]; rfl)
      have hpb : processBucket env delay src src st = .ok st := by
        unfold processBucket
        rw [hsrc]
        dsimp only
        rw [hmk, hsrc]
        dsimp only
        rw [leftOnly_self, copyLoop_nil]
      refine ⟨st, hpb, fun p _ => rfl, fun p x h => h, fun p h => h,
        ⟨[], by simp⟩, fun dsrc h => ?_⟩
      injection h with hdd
      subst hdd
      refine ⟨by rw [hsrc]; rfl, fun n _ hn => ?_⟩
      unfold memListing
      rw [hsrc]
      exact hn
    · set fs1 : FS := makedirs st.fs tgt with hfs1
      have h1src : fsLookup fs1 src = some dsrc0 := by
        rw [hfs1, fsLookup_makedirs_ne st.fs tgt src hst]
        exact hsrc
      set dtgt1 : Dir := (fsLookup st.fs tgt).getD emptyDir with hdtgt1
      have h1tgt : fsLookup fs1 tgt = some dtgt1 := by
        rw [hfs1, fsLookup_makedirs_self]
      set st1 : St := { st with fs := fs1 } with hst1
      have h1src' : fsLookup st1.fs src = some dsrc0 := h1src
      have h1tgt' : fsLookup st1.fs tgt = some dtgt1 := h1tgt
      obtain ⟨fs', hrun, hoff, hmem, hiso⟩ :=
        copyLoop_ok env delay src tgt (leftOnly dsrc0 dtgt1) st1 dsrc0 dtgt1
          (fun x _ => hfail x) hst h1src' h1tgt'
      have hpb : processBucket env delay src tgt st =
          .ok ⟨fs', st.copied ++
            ((leftOnly dsrc0 dtgt1).filter (eligibleD env delay dsrc0)).map
              (fun n => tgt ++ [n])⟩ := by
        unfold processBucket
        rw [hsrc]
        dsimp only
        rw [← hfs1, h1src, h1tgt]
        dsimp only
        exact hrun
      refine ⟨_, hpb, ?_, ?_, ?_, ⟨_, rfl⟩, ?_⟩
      · intro p hp
        rw [hoff p hp]
        show fsLookup fs1 p = fsLookup st.fs p
        rw [hfs1]
        exact fsLookup_makedirs_ne st.fs tgt p hp
      · intro p x h
        have h1 : memListing fs1 p x := by
          rw [hfs1]
          exact memListing_makedirs st.fs tgt p x h
        by_cases hp : p = tgt
        · subst hp
          exact (hmem x).mpr (Or.inl h1)
        · exact (memListing_congr fs' fs1 p x (hoff p hp)).mpr h1
      · intro p h
        by_cases hp : p = tgt
        · subst hp
          exact hiso
        · rw [hoff p hp]
          show (fsLookup fs1 p).isSome = true
          rw [hfs1, fsLookup_makedirs_ne st.fs tgt p hp]
          exact h
      · intro dsrc h
        injection h with hdd
        subst hdd
        refine ⟨hiso, fun n hel hn => ?_⟩
        by_cases hb : n ∈ listing dtgt1
        · refine (hmem n).mpr (Or.inl ?_)
          unfold memListing
          rw [h1tgt]
          exact hb
        · refine (hmem n).mpr (Or.inr ?_)
          rw [List.mem_filter]
          exact ⟨(mem_leftOnly dsrc0 dtgt1 n).mpr ⟨hn, hb⟩, hel⟩

end Mkndaq

namespace Mkndaq

theorem runBuckets_nil (env : Env) (delay : Int) (st : St) :
    runBuckets env delay [] st = .ok st := rfl

theorem runBuckets_cons (env : Env) (delay : Int) (src tgt : Path)
    (rest : List (Path × Path)) (st : St) :
    runBuckets env delay ((src, tgt) :: rest) st =
      match processBucket env delay src tgt st with
      | .ok st' => runBuckets env delay rest st'
      | e => e := rfl

theorem runBuckets_singleton (env : Env) (delay : Int) (src tgt : Path) (st : St) :
    runBuckets env delay [(src, tgt)] st = processBucket env delay src tgt st := by
  rw [runBuckets_cons]
  cases processBucket env delay src tgt st with
  | ok st' => rfl
  | err e st' => rfl

theorem runBuckets_ok (env : Env) (delay : Int) (pairs : List (Path × Path)) (st : St)
    (hfail : ∀ pr ∈ pairs, ∀ x, env.copyFails pr.1 x = false) :
    ∃ st', runBuckets env delay pairs st = .ok st'
      ∧ (∀ p, (∀ pr ∈ pairs, p ≠ pr.2) → fsLookup st'.fs p = fsLookup st.fs p)
      ∧ (∀ p x, memListing st.fs p x → memListing st'.fs p x)
      ∧ (∀ p, (fsLookup st.fs p).isSome = true → (fsLookup st'.fs p).isSome = true)
      ∧ (∃ l, st'.copied = st.copied ++ l)
      ∧ (∀ pr ∈ pairs, (∀ pr' ∈ pairs, pr.1 ≠ pr'.2) →
          ∀ dsrc, fsLookup st.fs pr.1 = some dsrc →
            (fsLookup st'.fs pr.2).isSome = true ∧
            (∀ n, eligibleD env delay dsrc n = true → n ∈ listing dsrc →
              memListing st'.fs pr.2 n)) := by
  induction pairs generalizing st with
  | nil =>
    exact ⟨st, rfl, fun p _ => rfl, fun p x h => h, fun p h => h,
      ⟨[], by simp⟩, fun pr hpr => absurd hpr (List.not_mem_nil pr)⟩
  | cons pr0 rest ih =>
    obtain ⟨src, tgt⟩ := pr0
    have hf0 : ∀ x, env.copyFails src x = false :=
      fun x => hfail (src, tgt) (List.mem_cons_self _ _) x
    have hfr : ∀ pr ∈ rest, ∀ x, env.copyFails pr.1 x = false :=
      fun pr hpr x => hfail pr (List.mem_cons_of_mem _ hpr) x
    obtain ⟨st1, hpb, hoff1, hmono1, hiso1, ⟨l1, hcop1⟩, hsat1⟩ :=
      processBucket_ok env delay src tgt st hf0
    obtain ⟨st2, hrun2, hoff2, hmono2, hiso2, ⟨l2, hcop2⟩, hsat2⟩ := ih st1 hfr
    have hrun : runBuckets env delay ((src, tgt) :: rest) st = .ok st2 := by
      rw [runBuckets_cons, hpb]
      exact hrun2
    refine ⟨st2, hrun, ?_, ?_, ?_, ⟨l1 ++ l2, by rw [hcop2, hcop1, List.append_assoc]⟩, ?_⟩
    · intro p hp
      rw [hoff2 p (fun pr hpr => hp pr (List.mem_cons_of_mem _ hpr)),
        hoff1 p (hp (src, tgt) (List.mem_cons_self _ _))]
    · intro p x h
      exact hmono2 p x (hmono1 p x h)
    · intro p h
      exact hiso2 p (hiso1 p h)
    · intro pr hpr hnt dsrc hdsrc
      rcases List.mem_cons.mp hpr with hpr0 | hprr
      · subst hpr0
        obtain ⟨hso, hsub⟩ := hsat1 dsrc hdsrc
        exact ⟨hiso2 tgt hso, fun n hel hn => hmono2 tgt n (hsub n hel hn)⟩
      · have hne1 : pr.1 ≠ tgt := hnt (src, tgt) (List.mem_cons_self _ _)
        have hdsrc1 : fsLookup st1.fs pr.1 = some dsrc := by
          rw [hoff1 pr.1 hne1]
          exact hdsrc
        exact hsat2 pr hprr (fun pr' hpr' => hnt pr' (List.mem_cons_of_mem _ hpr')) dsrc hdsrc1

theorem copyLoop_all_skip (env : Env) (delay : Int) (src tgt : Path)
    (names : List Name) (st : St) (dsrc : Dir)
    (hsrc : fsLookup st.fs src = some dsrc)
    (hnone : ∀ n ∈ names, eligibleD env delay dsrc n = false) :
    copyLoop env delay src tgt names st = .ok st := by
  induction names with
  | nil => rfl
  | cons n rest ih =>
    rw [copyLoop_cons,
      copyStep_not_eligible env delay src tgt n st dsrc hsrc
        (hnone n (List.mem_cons_self _ _))]
    exact ih (fun x hx => hnone x (List.mem_cons_of_mem _ hx))

theorem processBucket_saturated (env : Env) (delay : Int) (src tgt : Path) (st : St)
    (hsat : ∀ dsrc, fsLookup st.fs src = some dsrc →
      (fsLookup st.fs tgt).isSome = true ∧
      (∀ n, eligibleD env delay dsrc n = true → n ∈ listing dsrc →
        memListing st.fs tgt n)) :
    processBucket env delay src tgt st = .ok st := by
  cases hsrc : fsLookup st.fs src with
  | none => simp [processBucket, hsrc]
  | some dsrc =>
    obtain ⟨hso, hsub⟩ := hsat dsrc hsrc
    have hmk : makedirs st.fs tgt = st.fs := makedirs_of_isSome st.fs tgt hso
    obtain ⟨dtgt, htgt⟩ : ∃ d, fsLookup st.fs tgt = some d := by
      cases h : fsLookup st.fs tgt with
      | none => rw [h] at hso; exact absurd hso (by simp)
      | some d => exact ⟨d, rfl⟩
    have hskip : ∀ n ∈ leftOnly dsrc dtgt, eligibleD env delay dsrc n = false := by
      intro n hn
      rw [mem_leftOnly] at hn
      cases hb : eligibleD env delay dsrc n with
      | false => rfl
      | true =>
        have hm := hsub n hb hn.1
        unfold memListing at hm
        rw [htgt] at hm
        exact absurd hm hn.2
    unfold processBucket
    rw [hsrc]
    dsimp only
    rw [hmk, hsrc, htgt]
    dsimp only
    have : ({ st with fs := st.fs } : St) = st := rfl
    rw [this]
    exact copyLoop_all_skip env delay src tgt (leftOnly dsrc dtgt) st dsrc hsrc hskip

theorem runBuckets_saturated (env : Env) (delay : Int)
    (pairs : List (Path × Path)) (st : St)
    (hsat : saturatedFor env delay pairs st.fs) :
    runBuckets env delay pairs st = .ok st := by
  induction pairs with
  | nil => rfl
  | cons pr0 rest ih =>
    obtain ⟨src, tgt⟩ := pr0
    rw [runBuckets_cons,
      processBucket_saturated env delay src tgt st
        (hsat (src, tgt) (List.mem_cons_self _ _))]
    exact ih (fun pr hpr => hsat pr (List.mem_cons_of_mem _ hpr))

end Mkndaq

namespace Mkndaq

theorem resolveParams_daily (delay : Option Int) :
    resolveParams (some "daily") delay = .ok (some fmtDaily, delay.getD 3600) := rfl

theorem resolveParams_monthly (delay : Option Int) :
    resolveParams (some "monthly") delay = .ok (some fmtMonthly, delay.getD 86400) := by
  unfold resolveParams
  rw [if_neg (by decide), if_pos rfl]

theorem resolveParams_flat (delay : Option Int) :
    resolveParams none delay = .ok (none, delay.getD 3600) := by
  unfold resolveParams
  rw [if_neg (by decide), if_neg (by decide), if_pos rfl]

theorem resolveParams_invalid (buckets : Option String) (delay : Option Int)
    (h0 : buckets ≠ none) (h1 : buckets ≠ some "daily") (h2 : buckets ≠ some "monthly") :
    resolveParams buckets delay = .error .valueError := by
  unfold resolveParams
  rw [if_neg h1, if_neg h2, if_neg h0]

theorem rsyncBody_valid (env : Env) (fs : FS) (source target : Path)
    (buckets : Option String) (days : Nat) (delay : Option Int)
    (hb : buckets = none ∨ buckets = some "daily" ∨ buckets = some "monthly") :
    rsyncBody env fs source target buckets days delay =
      runBuckets env (resolvedDelay buckets delay)
        (rsyncPairs env source target buckets days) ⟨fs, []⟩ := by
  rcases hb with rfl | rfl | rfl
  · rw [rsyncBody, resolveParams_flat]
    dsimp only
    rw [resolvedDelay, if_neg (by decide), rsyncPairs,
      if_neg (by decide), if_neg (by decide), runBuckets_singleton]
  · rw [rsyncBody, resolveParams_daily]
    dsimp only
    rw [resolvedDelay, if_neg (by decide), rsyncPairs, if_pos rfl]
  · rw [rsyncBody, resolveParams_monthly]
    dsimp only
    rw [resolvedDelay, if_pos rfl, rsyncPairs, if_neg (by decide), if_pos rfl]

theorem rsyncBody_invalid (env : Env) (fs : FS) (source target : Path)
    (buckets : Option String) (days : Nat) (delay : Option Int)
    (h0 : buckets ≠ none) (h1 : buckets ≠ some "daily") (h2 : buckets ≠ some "monthly") :
    rsyncBody env fs source target buckets days delay = .err .valueError ⟨fs, []⟩ := by
  rw [rsyncBody, resolveParams_invalid buckets delay h0 h1 h2]

theorem rsync_of_body_ok (env : Env) (fs : FS) (source target : Path)
    (buckets : Option String) (days : Nat) (delay : Option Int) (st : St)
    (h : rsyncBody env fs source target buckets days delay = .ok st) :
    rsync env fs source target buckets days delay = (.returned (some st.copied), st.fs) := by
  rw [rsync, h]

theorem rsync_of_body_err (env : Env) (fs : FS) (source target : Path)
    (buckets : Option String) (days : Nat) (delay : Option Int) (e : PyErr) (st : St)
    (h : rsyncBody env fs source target buckets days delay = .err e st) :
    rsync env fs source target buckets days delay = (.returned none, st.fs) := by
  rw [rsync, h]

end Mkndaq

namespace Mkndaq

/-- Claim C3: the settling filter of `rsync` keeps a candidate exactly when
`now - mtime` is strictly greater than the configured delay, so a candidate
aged `delay - 1` is excluded from copying and one aged `delay + 1` is
copied.  Stated over the candidate loop of `rsync` (filesync.py lines 56-63
and 70-74): for a regular source file `n` of mtime `m` among the cycle's
candidates, `n`'s target path lands in `files_copied` exactly when
`now - m > delay`. -/
theorem rsync_settling_strict (env : Env) (delay : Int) (src tgt : Path)
    (names : List Name) (st : St) (dsrc dt : Dir) (n : Name) (m : Int)
    (hfail : ∀ p x, env.copyFails p x = false)
    (hne : src ≠ tgt)
    (hsrc : fsLookup st.fs src = some dsrc)
    (htgt : fsLookup st.fs tgt = some dt)
    (hn : n ∈ names)
    (hm : findFile dsrc n = some m)
    (hnotyet : (tgt ++ [n]) ∉ st.copied) :
    ∃ st', copyLoop env delay src tgt names st = .ok st'
      ∧ ((tgt ++ [n]) ∈ st'.copied ↔ env.now - m > delay) := by
  obtain ⟨fs', hrun, _, _, _⟩ :=
    copyLoop_ok env delay src tgt names st dsrc dt
      (fun x _ => hfail src x) hne hsrc htgt
  refine ⟨_, hrun, ?_⟩
  constructor
  · intro h
    rcases List.mem_append.mp h with h1 | h1
    · exact absurd h1 hnotyet
    · obtain ⟨x, hx, hxe⟩ := List.mem_map.mp h1
      have hxn : x = n := by
        have := List.append_cancel_left hxe
        simpa using this
      subst hxn
      have hel : eligibleD env delay dsrc x = true := (List.mem_filter.mp hx).2
      unfold eligibleD at hel
      rw [hm] at hel
      exact of_decide_eq_true hel
  · intro h
    refine List.mem_append.mpr (Or.inr ?_)
    refine List.mem_map.mpr ⟨n, ?_, rfl⟩
    refine List.mem_filter.mpr ⟨hn, ?_⟩
    unfold eligibleD
    rw [hm]
    exact decide_eq_true h

/-- Witness for C3 at a concrete cycle: delay 10, now 100; the candidate
aged 9 seconds (mtime 91) is not copied, the candidate aged 20 seconds
(mtime 80) is. -/
theorem rsync_settling_strict_witness :
    (∃ st', copyLoop envC 10 [['s']] [['t']]
        [['a'], ['b']] ⟨[([['s']], ⟨[(['a'], 91), (['b'], 80)], []⟩),
          ([['t']], ⟨[], []⟩)], []⟩ = .ok st'
      ∧ (([['t']] ++ [['a']]) ∈ st'.copied ↔ (100 : Int) - 91 > 10))
    ∧ (∃ st', copyLoop envC 10 [['s']] [['t']]
        [['a'], ['b']] ⟨[([['s']], ⟨[(['a'], 91), (['b'], 80)], []⟩),
          ([['t']], ⟨[], []⟩)], []⟩ = .ok st'
      ∧ (([['t']] ++ [['b']]) ∈ st'.copied ↔ (100 : Int) - 80 > 10)) := by
  constructor
  · exact rsync_settling_strict envC 10 [['s']] [['t']] [['a'], ['b']]
      ⟨[([['s']], ⟨[(['a'], 91), (['b'], 80)], []⟩), ([['t']], ⟨[], []⟩)], []⟩
      ⟨[(['a'], 91), (['b'], 80)], []⟩ ⟨[], []⟩ ['a'] 91
      (fun _ _ => rfl) (by decide) (by decide) (by decide) (by decide)
      (by decide) (by decide)
  · exact rsync_settling_strict envC 10 [['s']] [['t']] [['a'], ['b']]
      ⟨[([['s']], ⟨[(['a'], 91), (['b'], 80)], []⟩), ([['t']], ⟨[], []⟩)], []⟩
      ⟨[(['a'], 91), (['b'], 80)], []⟩ ⟨[], []⟩ ['b'] 80
      (fun _ _ => rfl) (by decide) (by decide) (by decide) (by decide)
      (by decide) (by decide)

end Mkndaq

namespace Mkndaq

/-- Counterexample to claim C6: with the invalid mode `"weekly"`, `rsync`
does not surface an error to its caller — the internal `ValueError` is
caught by the function's own `except` handler, which prints it and returns
`None`. -/
theorem c6_counterexample : ¬ c6claim := by
  intro h
  have h2 := h envC [] [['s']] [['t']] (some "weekly") 1 (some 3600)
    (by decide) (by decide) (by decide)
  exact absurd h2.1 (by decide)

/-- Claim C6, amended: for every `buckets` value other than `None`,
`"daily"` or `"monthly"`, the `try` block of `rsync` raises `ValueError`
before copying anything, the function-level handler swallows it, and the
caller observes the return value `None` with the filesystem unchanged. -/
theorem rsync_invalid_buckets (env : Env) (fs : FS) (source target : Path)
    (buckets : Option String) (days : Nat) (delay : Option Int)
    (h0 : buckets ≠ none) (h1 : buckets ≠ some "daily") (h2 : buckets ≠ some "monthly") :
    rsyncBody env fs source target buckets days delay = .err .valueError ⟨fs, []⟩
    ∧ rsync env fs source target buckets days delay = (.returned none, fs) := by
  have hb := rsyncBody_invalid env fs source target buckets days delay h0 h1 h2
  exact ⟨hb, rsync_of_body_err env fs source target buckets days delay .valueError ⟨fs, []⟩ hb⟩

/-- Witness for the amended C6 at the concrete mode `"weekly"`. -/
theorem rsync_invalid_buckets_witness :
    rsyncBody envC [] [['s']] [['t']] (some "weekly") 1 (some 3600) =
      .err .valueError ⟨[], []⟩
    ∧ rsync envC [] [['s']] [['t']] (some "weekly") 1 (some 3600) =
      (.returned none, []) :=
  rsync_invalid_buckets envC [] [['s']] [['t']] (some "weekly") 1 (some 3600)
    (by decide) (by decide) (by decide)

/-- Counterexample to claim C10: when the flat source directory is missing,
`rsync` prints a message and returns a normal (empty) list — not `None` —
even though a missing-directory failure occurred, so the claimed
equivalence between a non-list result and the occurrence of a failure is
false. -/
theorem c10_counterexample : ¬ c10claim := by
  intro h
  have h2 := (h envC [] [['s']] [['t']] none 1 (some 3600)).2
  have h3 : (rsync envC [] [['s']] [['t']] none 1 (some 3600)).1 = .returned none :=
    h2.mpr (Or.inr (Or.inl ⟨rfl, rfl⟩))
  exact absurd h3 (by decide)

/-- Claim C10, amended: `rsync` never propagates an exception to its caller;
an invalid `buckets` value yields the return value `None`; and with a valid
`buckets` value and no environmental copy failures the caller always
receives a list — in particular, missing source directories are logged and
skipped rather than reported through the `None` return. -/
theorem rsync_never_raises (env : Env) (fs : FS) (source target : Path)
    (buckets : Option String) (days : Nat) (delay : Option Int) :
    (∀ e, (rsync env fs source target buckets days delay).1 ≠ .raised e)
    ∧ (buckets ≠ none → buckets ≠ some "daily" → buckets ≠ some "monthly" →
        (rsync env fs source target buckets days delay).1 = .returned none)
    ∧ ((buckets = none ∨ buckets = some "daily" ∨ buckets = some "monthly") →
        (∀ p x, env.copyFails p x = false) →
        ∃ l, (rsync env fs source target buckets days delay).1 = .returned (some l)) := by
  refine ⟨?_, ?_, ?_⟩
  · intro e
    rw [rsync]
    cases rsyncBody env fs source target buckets days delay with
    | ok st => exact fun hc => by injection hc
    | err e' st => exact fun hc => by injection hc
  · intro h0 h1 h2
    rw [rsync_of_body_err env fs source target buckets days delay .valueError ⟨fs, []⟩
      (rsyncBody_invalid env fs source target buckets days delay h0 h1 h2)]
  · intro hb hfail
    obtain ⟨st', hrun, -, -, -, -, -⟩ :=
      runBuckets_ok env (resolvedDelay buckets delay)
        (rsyncPairs env source target buckets days) ⟨fs, []⟩
        (fun pr _ x => hfail pr.1 x)
    refine ⟨st'.copied, ?_⟩
    rw [rsync, rsyncBody_valid env fs source target buckets days delay hb, hrun]

/-- Witness for the amended C10: a concrete valid call over an existing
source returns a list, a concrete invalid call returns `None`, and neither
raises. -/
theorem rsync_never_raises_witness :
    ((∀ e, (rsync envC [([['s']], ⟨[(['a'], 0)], []⟩)] [['s']] [['t']] none 1
        (some 3600)).1 ≠ .raised e)
      ∧ ∃ l, (rsync envC [([['s']], ⟨[(['a'], 0)], []⟩)] [['s']] [['t']] none 1
        (some 3600)).1 = .returned (some l))
    ∧ (rsync envC [] [['s']] [['t']] (some "weekly") 1 (some 3600)).1 =
        .returned none := by
  refine ⟨⟨?_, ?_⟩, ?_⟩
  · exact (rsync_never_raises envC [([['s']], ⟨[(['a'], 0)], []⟩)] [['s']] [['t']]
      none 1 (some 3600)).1
  · exact (rsync_never_raises envC [([['s']], ⟨[(['a'], 0)], []⟩)] [['s']] [['t']]
      none 1 (some 3600)).2.2 (Or.inl rfl) (fun _ _ => rfl)
  · exact (rsync_never_raises envC [] [['s']] [['t']] (some "weekly") 1
      (some 3600)).2.1 (by decide) (by decide) (by decide)

/-- Counterexample to claim C4: the declared default of the `delay`
parameter is the integer 3600, so a caller that simply omits the argument
gets a 3600-second delay even for monthly bucketing — not 86400. -/
theorem c4_counterexample : ¬ c4claim := by
  intro h
  exact absurd h.2.2 (by decide)

/-- Claim C4, amended: the mode-dependent defaults (3600 for daily or flat,
86400 for monthly) apply only when the caller explicitly passes `None` as
the delay; a caller omitting the argument gets the declared parameter
default 3600 in every mode. -/
theorem rsync_delay_defaults :
    resolveParams (some "monthly") none = .ok (some fmtMonthly, 86400)
    ∧ resolveParams (some "daily") none = .ok (some fmtDaily, 3600)
    ∧ resolveParams none none = .ok (none, 3600)
    ∧ resolveParams (some "monthly") delayDefault = .ok (some fmtMonthly, 3600)
    ∧ resolveParams (some "daily") delayDefault = .ok (some fmtDaily, 3600)
    ∧ resolveParams none delayDefault = .ok (none, 3600) := by
  refine ⟨?_, rfl, ?_, ?_, rfl, ?_⟩
  · rw [resolveParams_monthly]
    rfl
  · rw [resolveParams_flat]
    rfl
  · rw [resolveParams_monthly]
    rfl
  · rw [resolveParams_flat]
    rfl

end Mkndaq

namespace Mkndaq

theorem processBucket_both (env : Env) (delay : Int) (src tgt : Path) (st : St)
    (dsrc dtgt : Dir)
    (hsrc : fsLookup st.fs src = some dsrc)
    (htgt : fsLookup st.fs tgt = some dtgt) :
    processBucket env delay src tgt st =
      copyLoop env delay src tgt (leftOnly dsrc dtgt) st := by
  unfold processBucket
  rw [hsrc]
  dsimp only
  rw [makedirs_of_isSome st.fs tgt (by rw [htgt]; rfl), hsrc, htgt]

/-- Counterexample to claim C2: in a cycle whose candidates are `a` then
`b`, both settled, where copying `a` fails, the still-copyable candidate
`b` never reaches the target — the failure aborts the whole cycle instead
of affecting only `a`. -/
theorem c2_counterexample : ¬ c2claim := by
  intro h
  have hb := h envF [([['s']], ⟨[(['a'], 0), (['b'], 0)], []⟩), ([['t']], ⟨[], []⟩)]
    [['s']] [['t']] 1 10 ⟨[(['a'], 0), (['b'], 0)], []⟩ ⟨[], []⟩
    (by decide) (by decide) (by decide) ['b'] (by decide) (by decide) (by decide)
  exact absurd hb (by decide)

/-- Claim C2, amended: a failing copy aborts the remainder of the sync
cycle.  The exception propagates out of the candidate loop to the
function-level handler, so `rsync` returns `None` (losing even the list of
files already copied), and no candidate after the failing one is attempted:
any later candidate not already at the target is still absent afterwards.
Stated for the flat (`buckets=None`) cycle of filesync.py lines 67-76. -/
theorem rsync_copy_failure_aborts (env : Env) (fs : FS) (source target : Path)
    (days : Nat) (d : Int) (dsrc dtgt : Dir)
    (pre : List Name) (bad : Name) (post : List Name)
    (hsrc : fsLookup fs source = some dsrc)
    (htgt : fsLookup fs target = some dtgt)
    (hne : source ≠ target)
    (hsplit : leftOnly dsrc dtgt = pre ++ bad :: post)
    (hnodup : (leftOnly dsrc dtgt).Nodup)
    (hpre : ∀ x ∈ pre, env.copyFails source x = false)
    (hel : eligibleD env d dsrc bad = true)
    (hbad : env.copyFails source bad = true) :
    (rsync env fs source target none days (some d)).1 = .returned Option.none
    ∧ ∀ x ∈ post, ¬ memListing fs target x →
        ¬ memListing (rsync env fs source target none days (some d)).2 target x := by
  obtain ⟨fs1, hrun1, hoff, hmem, hiso⟩ :=
    copyLoop_ok env d source target pre ⟨fs, []⟩ dsrc dtgt hpre hne hsrc htgt
  set st1 : St := ⟨fs1, [] ++ (pre.filter (eligibleD env d dsrc)).map
    (fun n => target ++ [n])⟩ with hst1
  have hsrc1 : fsLookup st1.fs source = some dsrc := by
    rw [hst1]
    dsimp only
    rw [hoff source hne]
    exact hsrc
  have hstep : copyStep env d source target bad st1 = .err .osError st1 :=
    copyStep_eligible_fail env d source target bad st1 dsrc hsrc1 hel hbad
  have hloop : copyLoop env d source target (leftOnly dsrc dtgt) ⟨fs, []⟩ =
      .err .osError st1 := by
    rw [hsplit, copyLoop_append, hrun1]
    dsimp only
    rw [copyLoop_cons, hstep]
  have hbody : rsyncBody env fs source target none days (some d) =
      .err .osError st1 := by
    rw [rsyncBody, resolveParams_flat]
    dsimp only
    show processBucket env d source target ⟨fs, []⟩ = .err .osError st1
    rw [processBucket_both env d source target ⟨fs, []⟩ dsrc dtgt hsrc htgt]
    exact hloop
  have hr := rsync_of_body_err env fs source target none days (some d) .osError st1 hbody
  refine ⟨by rw [hr], ?_⟩
  intro x hx hnot
  rw [hr]
  dsimp only
  intro hlm
  rcases (hmem x).mp hlm with h1 | h1
  · exact hnot h1
  · have hxpre : x ∈ pre := (List.mem_filter.mp h1).1
    rw [hsplit, List.nodup_append] at hnodup
    exact hnodup.2.2 hxpre (List.mem_cons_of_mem bad hx)

/-- Witness for the amended C2 at a concrete cycle: source holds settled
files `a` and `b`, copying `a` fails; the call returns `None` and `b` is
not at the target. -/
theorem rsync_copy_failure_aborts_witness :
    (rsync envF [([['s']], ⟨[(['a'], 0), (['b'], 0)], []⟩), ([['t']], ⟨[], []⟩)]
      [['s']] [['t']] none 1 (some 10)).1 = .returned Option.none
    ∧ ¬ memListing (rsync envF
        [([['s']], ⟨[(['a'], 0), (['b'], 0)], []⟩), ([['t']], ⟨[], []⟩)]
        [['s']] [['t']] none 1 (some 10)).2 [['t']] ['b'] := by
  have h := rsync_copy_failure_aborts envF
    [([['s']], ⟨[(['a'], 0), (['b'], 0)], []⟩), ([['t']], ⟨[], []⟩)]
    [['s']] [['t']] 1 10 ⟨[(['a'], 0), (['b'], 0)], []⟩ ⟨[], []⟩
    [] ['a'] [['b']]
    (by decide) (by decide) (by decide) (by decide) (by decide)
    (by decide) (by decide) (by decide)
  exact ⟨h.1, h.2 ['b'] (by decide) (by decide)⟩

end Mkndaq

namespace Mkndaq

/-- Counterexample to claim C7: a source file whose age equals the delay at
the first run (excluded: the filter is strict) crosses the threshold when
the second run happens just one second later, so the second run copies it
even though no new source file appeared between the runs. -/
theorem c7_counterexample : ¬ c7claim := by
  intro h
  have h2 := h envA1 envB2 [([['s']], ⟨[(['f'], 6400)], []⟩)] [['s']] [['t']]
    none 1 (some 3600) (Or.inl rfl) rfl (by decide)
    (fun _ _ => rfl) (fun _ _ => rfl)
  exact absurd h2 (by decide)

/-- Claim C7, amended: two `rsync` cycles over the same source and target
in the same environment (same clock reading, so no candidate crosses the
settling threshold between the runs), with no source bucket coinciding with
a target bucket, copy everything eligible on the first run and nothing on
the second: the second run returns the empty list and leaves the filesystem
unchanged. -/
theorem rsync_idempotent_same_instant (env : Env) (fs : FS) (source target : Path)
    (buckets : Option String) (days : Nat) (delay : Option Int)
    (hb : buckets = none ∨ buckets = some "daily" ∨ buckets = some "monthly")
    (hfail : ∀ p x, env.copyFails p x = false)
    (hdisj : ∀ pr ∈ rsyncPairs env source target buckets days,
        ∀ pr' ∈ rsyncPairs env source target buckets days, pr.1 ≠ pr'.2) :
    ∃ l1 fs1, rsync env fs source target buckets days delay = (.returned (some l1), fs1)
      ∧ rsync env fs1 source target buckets days delay = (.returned (some []), fs1) := by
  obtain ⟨st1, hrun, hoff, hmono, hiso, hcop, hsat⟩ :=
    runBuckets_ok env (resolvedDelay buckets delay)
      (rsyncPairs env source target buckets days) ⟨fs, []⟩
      (fun pr _ x => hfail pr.1 x)
  refine ⟨st1.copied, st1.fs, ?_, ?_⟩
  · rw [rsync, rsyncBody_valid env fs source target buckets days delay hb, hrun]
  · have hsat2 : saturatedFor env (resolvedDelay buckets delay)
        (rsyncPairs env source target buckets days) st1.fs := by
      intro pr hpr dsrc hdsrc
      rw [hoff pr.1 (fun pr' hpr' => hdisj pr hpr pr' hpr')] at hdsrc
      exact hsat pr hpr (fun pr' hpr' => hdisj pr hpr pr' hpr') dsrc hdsrc
    rw [rsync, rsyncBody_valid env st1.fs source target buckets days delay hb,
      runBuckets_saturated env (resolvedDelay buckets delay) _ ⟨st1.fs, []⟩ hsat2]

/-- Witness for the amended C7 at a concrete flat cycle with one settled
source file. -/
theorem rsync_idempotent_same_instant_witness :
    ∃ l1 fs1, rsync envC [([['s']], ⟨[(['f'], 0)], []⟩)] [['s']] [['t']]
        none 1 (some 10) = (.returned (some l1), fs1)
      ∧ rsync envC fs1 [['s']] [['t']] none 1 (some 10) =
        (.returned (some []), fs1) :=
  rsync_idempotent_same_instant envC [([['s']], ⟨[(['f'], 0)], []⟩)]
    [['s']] [['t']] none 1 (some 10) (Or.inl rfl) (fun _ _ => rfl) (by decide)

end Mkndaq

namespace Mkndaq

theorem tei49iRun_some_eq_closeAux (ds : List Path) (p : Path) :
    tei49iRun (some p) ds = closeAux p ds := by
  induction ds generalizing p with
  | nil => rfl
  | cons f rest ih =>
    by_cases hp : p = f
    · subst hp
      simp [tei49iRun, tei49iStep, closeAux, ih]
    · simp [tei49iRun, tei49iStep, closeAux, hp, ih]

theorem tei49iRun_none_eq_closeSignals (ds : List Path) :
    tei49iRun none ds = closeSignals ds := by
  cases ds with
  | nil => rfl
  | cons f rest =>
    simp [tei49iRun, tei49iStep, closeSignals, tei49iRun_some_eq_closeAux]

theorem filterMap_closeAux (lab : List Nat) (a : Nat) (file : Nat → Path)
    (hinj : Function.Injective file) :
    (closeAux (file a) (lab.map file)).filterMap id = (changePoints a lab).map file := by
  induction lab generalizing a with
  | nil => rfl
  | cons b rest ih =>
    by_cases hab : a = b
    · subst hab
      simp [closeAux, changePoints, List.filterMap_cons, ih]
    · have hfn : file a ≠ file b := fun hc => hab (hinj hc)
      simp [closeAux, changePoints, List.filterMap_cons, hab, hfn, ih]

theorem changePoints_chain (lab : List Nat) (a : Nat)
    (h : (a :: lab).Chain' (fun x y => x ≤ y)) :
    (changePoints a lab).Chain' (fun x y => x < y)
    ∧ ∀ x ∈ changePoints a lab, a ≤ x := by
  induction lab generalizing a with
  | nil => exact ⟨List.chain'_nil, by simp [changePoints]⟩
  | cons b rest ih =>
    have hab : a ≤ b := (List.chain'_cons.mp h).1
    have hrest : (b :: rest).Chain' (fun x y => x ≤ y) := (List.chain'_cons.mp h).2
    obtain ⟨hc, hlb⟩ := ih b hrest
    by_cases he : a = b
    · rw [changePoints, if_pos he]
      exact ⟨hc, fun x hx => he ▸ hlb x hx⟩
    · have halt : a < b := lt_of_le_of_ne hab he
      rw [changePoints, if_neg he]
      refine ⟨List.chain'_cons'.mpr ⟨?_, hc⟩, ?_⟩
      · intro y hy
        exact lt_of_lt_of_le halt (hlb y (List.mem_of_mem_head? hy))
      · intro x hx
        rcases List.mem_cons.mp hx with rfl | hx'
        · exact le_refl x
        · exact le_of_lt (lt_of_lt_of_le halt (hlb x hx'))

theorem changePoints_nodup (lab : List Nat) (a : Nat)
    (h : (a :: lab).Chain' (fun x y => x ≤ y)) :
    (changePoints a lab).Nodup := by
  have hc := (changePoints_chain lab a h).1
  have hp : (changePoints a lab).Pairwise (fun x y => x < y) :=
    List.chain'_iff_pairwise.mp hc
  exact hp.imp (fun hxy => ne_of_lt hxy)

/-- Counterexample to claim C1: `TEI49C.get_data` stages the current data
file on every save-tick, so two ticks in the same bin stage the same file
twice, with no bin close at all — the claimed staging discipline fails for
that driver. -/
theorem c1_counterexample : ¬ c1claim := by
  intro h
  have hinj : Function.Injective (fun k : Nat => ([List.replicate k 'x'] : Path)) := by
    intro a b hab
    have h1 : List.replicate a 'x' = List.replicate b 'x' := by injection hab
    have h2 := congrArg List.length h1
    simpa using h2
  have h2 := h.2 [0, 0] (fun k : Nat => ([List.replicate k 'x'] : Path))
    hinj (by simp [List.chain'_cons])
  exact absurd h2.1 (by decide)

/-- Claim C1, amended: the staging discipline holds for `TEI49I.get_data`
(its `__file_to_stage` guard stages the previous bin's file exactly once, at
the first tick whose data-file path differs, and never re-stages a file over
a monotone bin-label sequence), but not for `TEI49C.get_data`, which stages
the currently open file on every tick. -/
theorem tei49i_stages_exactly_at_close : c1prop (tei49iRun none) := by
  intro lab file hinj hchain
  refine ⟨tei49iRun_none_eq_closeSignals _, ?_⟩
  rw [tei49iRun_none_eq_closeSignals]
  cases lab with
  | nil => simp [closeSignals]
  | cons a rest =>
    rw [List.map_cons]
    show ((none :: closeAux (file a) (rest.map file)).filterMap id).Nodup
    rw [List.filterMap_cons]
    dsimp only [id]
    rw [filterMap_closeAux rest a file hinj]
    exact (changePoints_nodup rest a hchain).map
      (fun x y hxy => hinj hxy)

/-- Witness for the amended C1: three ticks with labels 0, 0, 1 — nothing is
staged on the first two ticks, the bin-0 file is staged exactly once when
the label changes to 1, and the staged-files list has no duplicates. -/
theorem tei49i_stages_exactly_at_close_witness :
    tei49iRun none ([0, 0, 1].map (fun k : Nat => ([List.replicate k 'x'] : Path))) =
      closeSignals ([0, 0, 1].map (fun k : Nat => ([List.replicate k 'x'] : Path)))
    ∧ ((tei49iRun none
        ([0, 0, 1].map (fun k : Nat => ([List.replicate k 'x'] : Path)))).filterMap id).Nodup := by
  have hinj : Function.Injective (fun k : Nat => ([List.replicate k 'x'] : Path)) := by
    intro a b hab
    have h1 : List.replicate a 'x' = List.replicate b 'x' := by injection hab
    have h2 := congrArg List.length h1
    simpa using h2
  exact tei49i_stages_exactly_at_close [0, 0, 1]
    (fun k : Nat => ([List.replicate k 'x'] : Path)) hinj
    (by simp [List.chain'_cons])

end Mkndaq

namespace Mkndaq

/-- Counterexample to claim C9: `TEI49C` keeps its rotation state in class
attributes, so constructing a second instance overwrites the state every
existing instance reads — instance 0's view changes. -/
theorem c9_counterexample : ¬ c9claim := by
  intro h
  have h1 := h.1 ⟨mkTeiState ⟨[['a']], [['g']], false⟩, []⟩ ⟨[['b']], [['g']], false⟩ 0
  exact absurd h1 (by decide)

/-- Claim C9, amended: `TEI49I` objects are isolated — constructing a
new object, or running a save-tick on object `i`, leaves every other
object's rotation state unchanged — while `TEI49C` state is class-level:
constructing another instance reassigns the shared configuration fields
every existing instance reads (so the first instance's observed data
directory, staging path and zip flag flip to the new construction's
values), while the shared current-data-file field, which the constructor
never assigns, persists from earlier ticks. -/
theorem tei49i_state_isolated :
    (∀ (w : World) (cfg : InstCfg) (i : Nat), i < w.tei49i_objs.length →
        tei49i_view (tei49i_init cfg w) i = tei49i_view w i)
    ∧ (∀ (w : World) (f : Path) (i j : Nat), j ≠ i →
        tei49i_view (tei49i_get_data i f w) j = tei49i_view w j)
    ∧ (∀ (w : World) (cfg : InstCfg) (i : Nat),
        (tei49c_view (tei49c_init cfg w) i).datadir = cfg.datadir
        ∧ (tei49c_view (tei49c_init cfg w) i).staging = cfg.staging
        ∧ (tei49c_view (tei49c_init cfg w) i).zip = cfg.zip
        ∧ (tei49c_view (tei49c_init cfg w) i).datafile =
            (tei49c_view w i).datafile) := by
  refine ⟨?_, ?_, ?_⟩
  · intro w cfg i hi
    unfold tei49i_view tei49i_init
    exact List.get?_append hi
  · intro w f i j hj
    unfold tei49i_get_data
    cases hg : w.tei49i_objs.get? i with
    | none => rfl
    | some s =>
      unfold tei49i_view
      exact List.get?_set_ne _ _ (fun hc => hj hc.symm)
  · intro w cfg i
    exact ⟨rfl, rfl, rfl, rfl⟩

/-- Witness for the amended C9: at a concrete world with two `TEI49I`
objects, constructing a third and ticking object 1 leave object 0
untouched; and at a `TEI49C` class record whose data file was set by an
earlier tick, a fresh construction flips the configuration every instance
reads while the shared data file persists. -/
theorem tei49i_state_isolated_witness :
    tei49i_view (tei49i_init ⟨[['c']], [['g']], false⟩
        ⟨mkTeiState ⟨[['z']], [['g']], false⟩,
          [mkTeiState ⟨[['a']], [['g']], false⟩, mkTeiState ⟨[['b']], [['g']], true⟩]⟩) 0 =
      tei49i_view ⟨mkTeiState ⟨[['z']], [['g']], false⟩,
          [mkTeiState ⟨[['a']], [['g']], false⟩, mkTeiState ⟨[['b']], [['g']], true⟩]⟩ 0
    ∧ tei49i_view (tei49i_get_data 1 [['f']]
        ⟨mkTeiState ⟨[['z']], [['g']], false⟩,
          [mkTeiState ⟨[['a']], [['g']], false⟩, mkTeiState ⟨[['b']], [['g']], true⟩]⟩) 0 =
      tei49i_view ⟨mkTeiState ⟨[['z']], [['g']], false⟩,
          [mkTeiState ⟨[['a']], [['g']], false⟩, mkTeiState ⟨[['b']], [['g']], true⟩]⟩ 0
    ∧ ((tei49c_view (tei49c_init ⟨[['b']], [['g']], false⟩
          ⟨⟨[['a']], some [['f']], none, [['g']], true⟩, []⟩) 0).datadir = [['b']]
      ∧ (tei49c_view (tei49c_init ⟨[['b']], [['g']], false⟩
          ⟨⟨[['a']], some [['f']], none, [['g']], true⟩, []⟩) 0).staging = [['g']]
      ∧ (tei49c_view (tei49c_init ⟨[['b']], [['g']], false⟩
          ⟨⟨[['a']], some [['f']], none, [['g']], true⟩, []⟩) 0).zip = false
      ∧ (tei49c_view (tei49c_init ⟨[['b']], [['g']], false⟩
          ⟨⟨[['a']], some [['f']], none, [['g']], true⟩, []⟩) 0).datafile =
        (tei49c_view ⟨⟨[['a']], some [['f']], none, [['g']], true⟩, []⟩ 0).datafile) := by
  refine ⟨?_, ?_, ?_⟩
  · exact tei49i_state_isolated.1 _ _ 0 (by decide)
  · exact tei49i_state_isolated.2.1 _ [['f']] 1 0 (by decide)
  · exact tei49i_state_isolated.2.2
      ⟨⟨[['a']], some [['f']], none, [['g']], true⟩, []⟩ ⟨[['b']], [['g']], false⟩ 0

/-- Counterexample to claim C5: a reporting interval of 2000 minutes is
neither 10 nor a valid multiple of 60, yet `METEO.__init__` accepts it
silently — the Python condition conjoins the bound `ri <= 1440` with the
negated validity test, so values above 1440 are never rejected (and
`TEI49C.__init__` validates nothing at all). -/
theorem c5_counterexample : ¬ c5claim := by
  intro h
  have h2 := (h 2000).2 (by unfold c5valid; decide)
  exact absurd h2.1 (by decide)

/-- Claim C5, amended: `METEO.__init__` raises (and its own handler logs)
`ValueError` exactly for intervals that are neither 10 nor multiples of 60
*and* are at most 1440; the error never reaches the caller, so construction
always completes; intervals above 1440 are accepted without complaint; and
`TEI49C.__init__` performs no interval validation. -/
theorem meteo_interval_check :
    (∀ ri : Int, meteo_init_interval ri = .okLoggedError .valueError ↔
      (¬ (ri = 10 ∨ ri % 60 = 0) ∧ ri ≤ 1440))
    ∧ (∀ ri : Int, meteo_init_interval ri ≠ .raisedToCaller .valueError)
    ∧ (∀ ri : Int, tei49c_init_interval ri = .ok) := by
  have hiff : ∀ ri : Int, meteo_interval_raises ri = true ↔
      (¬ (ri = 10 ∨ ri % 60 = 0) ∧ ri ≤ 1440) := by
    intro ri
    simp [meteo_interval_raises]
  refine ⟨?_, ?_, fun ri => rfl⟩
  · intro ri
    rw [meteo_init_interval]
    by_cases h : meteo_interval_raises ri = true
    · rw [if_pos h]
      exact iff_of_true rfl ((hiff ri).mp h)
    · rw [if_neg h]
      constructor
      · intro hx
        exact absurd hx (by decide)
      · intro hp
        exact absurd ((hiff ri).mpr hp) h
  · intro ri
    rw [meteo_init_interval]
    by_cases h : meteo_interval_raises ri = true
    · rw [if_pos h]
      decide
    · rw [if_neg h]
      decide

/-- Witness for the amended C5: the interval 45 is logged as invalid while
construction completes; 2000 is accepted; `TEI49C` accepts 45. -/
theorem meteo_interval_check_witness :
    meteo_init_interval 45 = .okLoggedError .valueError
    ∧ meteo_init_interval 2000 ≠ .okLoggedError .valueError
    ∧ meteo_init_interval 45 ≠ .raisedToCaller .valueError
    ∧ tei49c_init_interval 45 = .ok := by
  refine ⟨?_, ?_, ?_, ?_⟩
  · exact (meteo_interval_check.1 45).mpr (by decide)
  · intro hc
    have := (meteo_interval_check.1 2000).mp hc
    exact absurd this (by decide)
  · exact meteo_interval_check.2.1 45
  · exact meteo_interval_check.2.2 45

end Mkndaq

namespace Mkndaq

/-- Counterexample to claim C8: the sources build the archive name as
`file[:-4] + ".zip"`, which equals `<basename-without-extension>.zip` only
for three-character extensions; a file named `x.jpeg` is staged as
`x.j.zip`, not `x.zip`. -/
theorem c8_counterexample : ¬ c8claim := by
  intro h
  have h2 := h [] ['m'] ("x.jpeg".toList)
  exact absurd h2 (by decide)

/-- Claim C8, amended: for a basename ending in a dot followed by exactly
three non-dot characters (as for the `.dat` files the rotation engine
itself produces), the staged artifact is
`<staging>/<instrument>/<basename-without-extension>.zip`, deflate
compressed, with a single entry named by the original basename; in general
the artifact name is `basename[:-4] + ".zip"`. -/
theorem stageZip_three_char_ext (staging : Path) (instName stem : Name)
    (e1 e2 e3 : Char) (h1 : e1 ≠ '.') (h2 : e2 ≠ '.') (h3 : e3 ≠ '.') :
    stageZip staging instName (stem ++ ['.', e1, e2, e3]) =
      { path := staging ++
          [instName, specStem (stem ++ ['.', e1, e2, e3]) ++ ".zip".toList]
      , compression := .deflated
      , entries := [stem ++ ['.', e1, e2, e3]] }
    ∧ specStem (stem ++ ['.', e1, e2, e3]) = stem := by
  have hstem : specStem (stem ++ ['.', e1, e2, e3]) = stem := by
    unfold specStem
    rw [if_pos (by simp)]
    rw [List.reverse_append]
    simp [List.dropWhile_cons, h1, h2, h3]
  have hdrop : pyDropLast4 (stem ++ ['.', e1, e2, e3]) = stem := by
    unfold pyDropLast4
    rw [List.length_append]
    simp only [List.length_cons, List.length_nil]
    have : stem.length + (0 + 1 + 1 + 1 + 1) - 4 = stem.length := by omega
    rw [show ((0:Nat) + 1 + 1 + 1 + 1) = 4 from rfl]
    rw [Nat.add_sub_cancel]
    exact List.take_left stem ['.', e1, e2, e3]
  refine ⟨?_, hstem⟩
  unfold stageZip zipName
  rw [hdrop, hstem]

/-- Witness for the amended C8 at the concrete basename `tei49c-0107.dat`. -/
theorem stageZip_three_char_ext_witness :
    stageZip [['g']] ['m'] ("tei49c-0107".toList ++ ['.', 'd', 'a', 't']) =
      { path := [['g']] ++
          [['m'], specStem ("tei49c-0107".toList ++ ['.', 'd', 'a', 't']) ++ ".zip".toList]
      , compression := .deflated
      , entries := [("tei49c-0107".toList ++ ['.', 'd', 'a', 't'])] }
    ∧ specStem ("tei49c-0107".toList ++ ['.', 'd', 'a', 't']) = "tei49c-0107".toList :=
  stageZip_three_char_ext [['g']] ['m'] ("tei49c-0107".toList) 'd' 'a' 't'
    (by decide) (by decide) (by decide)

end Mkndaq
